import Mathlib

/-!
Verification of the Singleton examples of the design-patterns repository.

The repository contains four Singleton variants:

* `src/Singleton/Structural/thread_safe/main.py` — `Singleton.get_instance(value)`
  with double-checked locking (unguarded fast read, lock, re-check, construct).
  Modelled below as a small-step interleaving system (`DCL`), one program
  counter per thread, so that concurrent first calls can be reasoned about.
* `src/Singleton/Conceptual/ThreadSafe/main.py` — `SingletonMeta.__call__`,
  which acquires the class-level lock on every call and keeps one instance per
  class in the shared `_instances` dict.  Modelled sequentially (`SM`): the
  whole body runs under the lock, so each call is atomic; the model counts
  lock acquisitions explicitly.
* `src/Singleton/Conceptual/NonThreadSafe/main.py` and
  `src/Singleton/Structure/main.py` — identical logic: a self-registering
  `__init__` that raises `ReferenceError` when `_instance` is already set,
  and a `get_instance` that constructs on demand.  Modelled sequentially
  (`NT`); these constructors take no value argument, so an instance is just
  its identity.

Object identity is modelled by a natural number allocated at construction
time; "same reference" is equality of identities.
-/

namespace DCL

/-- An instance of the guarded type of `Structural/thread_safe/main.py`:
its identity plus the `value` field set by `__init__`. -/
structure Inst where
  id : Nat
  value : String
deriving DecidableEq, Repr

/-- Program counter of one thread executing `Singleton.get_instance(value)`
(lines 52–56 of `Structural/thread_safe/main.py`):
`start` = the unguarded `if not Singleton._instance:` (line 52);
`tryLock` = `with Singleton._lock:` (line 53, blocks while held);
`recheck` = the guarded `if not Singleton._instance:` (line 54);
`construct` = `Singleton._instance = Singleton(value)` (line 55);
`unlock` = leaving the `with` block;
`ret` = `return Singleton._instance` (line 56); `done` = returned. -/
inductive PC where
  | start
  | tryLock
  | recheck
  | construct
  | unlock
  | ret
  | done
deriving DecidableEq, Repr

/-- One thread running `test_singleton(value)`: its program counter, the
`value` argument it would pass to the constructor, and the reference it
returned (once `done`). -/
structure ThreadSt where
  pc : PC
  arg : String
  res : Option Inst
deriving DecidableEq, Repr

/-- Global configuration for `n` threads: the shared `Singleton._instance`
slot, the shared `Singleton._lock` (holder's index, `none` when free), and a
counter of how many times the constructor body has run (also the source of
fresh identities). -/
structure Config (n : Nat) where
  threads : Fin n → ThreadSt
  slot : Option Inst
  lock : Option (Fin n)
  constructions : Nat

/-- Replace thread `i`'s program counter, leaving everything else alone. -/
def Config.setPC {n : Nat} (c : Config n) (i : Fin n) (p : PC) : Config n :=
  { c with threads := Function.update c.threads i { c.threads i with pc := p } }

/-- One atomic step of thread `i` in `Singleton.get_instance`.  A thread
blocked on the lock (at `tryLock` while the lock is held) or already `done`
leaves the configuration unchanged. -/
def step {n : Nat} (c : Config n) (i : Fin n) : Config n :=
  let t := c.threads i
  match t.pc with
  | .start =>
    match c.slot with
    | some _ => c.setPC i .ret
    | none => c.setPC i .tryLock
  | .tryLock =>
    match c.lock with
    | none => { c.setPC i .recheck with lock := some i }
    | some _ => c
  | .recheck =>
    match c.slot with
    | none => c.setPC i .construct
    | some _ => c.setPC i .unlock
  | .construct =>
    { c with
      threads := Function.update c.threads i { t with pc := .unlock },
      slot := some ⟨c.constructions, t.arg⟩,
      constructions := c.constructions + 1 }
  | .unlock => { c.setPC i .ret with lock := none }
  | .ret =>
    { c with threads := Function.update c.threads i { t with pc := .done, res := c.slot } }
  | .done => c

/-- Run a schedule: at each point the named thread takes its next step. -/
def run {n : Nat} (c : Config n) : List (Fin n) → Config n
  | [] => c
  | i :: s => run (step c i) s

/-- The launch configuration of the demo driver: every thread is about to
make its first call, the slot is empty, the lock free, nothing constructed. -/
def initConfig {n : Nat} (args : Fin n → String) : Config n :=
  { threads := fun i => { pc := .start, arg := args i, res := none },
    slot := none,
    lock := none,
    constructions := 0 }

/-- Program counters inside the `with Singleton._lock:` region. -/
def inSection : PC → Prop
  | .recheck => True
  | .construct => True
  | .unlock => True
  | _ => False

/-- Program counters a call that took the unguarded fast path moves through:
it never enters the locked region. -/
def fastPC : PC → Prop
  | .start => True
  | .ret => True
  | .done => True
  | _ => False

instance (p : PC) : Decidable (inSection p) := by
  cases p <;> simp [inSection] <;> infer_instance

instance (p : PC) : Decidable (fastPC p) := by
  cases p <;> simp [fastPC] <;> infer_instance

/-- The inductive invariant of the double-checked locking protocol. -/
structure Inv {n : Nat} (c : Config n) : Prop where
  holderInSection : ∀ j, c.lock = some j → inSection (c.threads j).pc
  sectionHoldsLock : ∀ j, inSection (c.threads j).pc → c.lock = some j
  constructEmpty : ∀ j, (c.threads j).pc = .construct → c.slot = none
  count : (c.slot = none ∧ c.constructions = 0) ∨ (c.slot ≠ none ∧ c.constructions = 1)
  popAfter : ∀ j, ((c.threads j).pc = .unlock ∨ (c.threads j).pc = .ret ∨
      (c.threads j).pc = .done) → c.slot ≠ none
  doneRes : ∀ j, (c.threads j).pc = .done → (c.threads j).res = c.slot
  slotArg : ∀ v, c.slot = some v → ∃ j, (c.threads j).arg = v.value

end DCL

namespace NT

/-- Registry state shared by `Conceptual/NonThreadSafe/main.py` and
`Structure/main.py`: the `Singleton._instance` slot (holding the identity of
the registered object, if any) together with the next fresh identity.  The
guarded type of these two variants has no fields, so an instance is just its
identity. -/
structure State where
  _instance : Option Nat
  nextId : Nat
deriving DecidableEq, Repr

/-- The state at process start: empty slot. -/
def state0 : State := { _instance := none, nextId := 0 }

/-- `Singleton.__init__` (lines 31–35 of `Conceptual/NonThreadSafe/main.py`,
lines 10–14 of `Structure/main.py`): if `Singleton._instance` is already set,
raise `ReferenceError("Cannot instantiate a singleton class.")`; otherwise
register the freshly allocated object (`Singleton._instance = self`).  The
returned pair is the post-state and either the new object's identity or the
raised error message. -/
def init (st : State) : State × Except String Nat :=
  match st._instance with
  | some _ => (st, .error "Cannot instantiate a singleton class.")
  | none => ({ _instance := some st.nextId, nextId := st.nextId + 1 }, .ok st.nextId)

/-- `Singleton.get_instance` (lines 37–54 of `Conceptual/NonThreadSafe/main.py`,
lines 4–8 of `Structure/main.py`): `if not Singleton._instance: Singleton()`
then `return Singleton._instance`.  A `ReferenceError` from the constructor
propagates. -/
def get_instance (st : State) : State × Except String (Option Nat) :=
  if st._instance = none then
    match init st with
    | (st', .error e) => (st', .error e)
    | (st', .ok _) => (st', .ok st'._instance)
  else (st, .ok st._instance)

/-- The state after `k` successive `get_instance` calls from a given state. -/
def iterGet (st : State) : Nat → State
  | 0 => st
  | k + 1 => (get_instance (iterGet st k)).1

end NT

namespace SM

/-- `SingletonMeta` registry state (`Conceptual/ThreadSafe/main.py`): the
shared `_instances` dict (an association list from class identity to
instance), the next fresh instance identity, and a counter of how many times
`cls._lock` has been acquired. -/
structure State where
  _instances : List (Nat × DCL.Inst)
  nextId : Nat
  lockAcquisitions : Nat
deriving DecidableEq, Repr

/-- The state at process start: empty `_instances`, lock never taken. -/
def state0 : State := { _instances := [], nextId := 0, lockAcquisitions := 0 }

/-- Dict lookup `cls._instances[cls]` / membership test `cls in cls._instances`. -/
def lookupInstance (m : List (Nat × DCL.Inst)) (cls : Nat) : Option DCL.Inst :=
  match m with
  | [] => none
  | (c, v) :: rest => if c = cls then some v else lookupInstance rest cls

/-- `SingletonMeta.__call__` (lines 35–74 of `Conceptual/ThreadSafe/main.py`):
the whole body runs inside `with cls._lock:` — the lock is acquired
unconditionally on every call.  Under the lock: if `cls` is not a key of
`_instances`, build `instance = super().__call__(*args)` and store it at
`_instances[cls]`; finally return `cls._instances[cls]`. -/
def call (st : State) (cls : Nat) (value : String) : State × Option DCL.Inst :=
  let st₁ := { st with lockAcquisitions := st.lockAcquisitions + 1 }
  let st₂ :=
    match lookupInstance st₁._instances cls with
    | none =>
      let inst : DCL.Inst := ⟨st₁.nextId, value⟩
      { st₁ with _instances := st₁._instances ++ [(cls, inst)], nextId := st₁.nextId + 1 }
    | some _ => st₁
  (st₂, lookupInstance st₂._instances cls)

/-- The state after a sequence of `SingletonMeta.__call__` invocations, each
given as a class identity paired with the `value` argument. -/
def runCalls (st : State) : List (Nat × String) → State
  | [] => st
  | (cls, value) :: rest => runCalls (call st cls value).1 rest

/-- N concurrent first calls `Singleton(value)` on one class: since the whole
body of `__call__` runs inside `with cls._lock:`, the lock serializes the
callers, so the possible concurrent executions are exactly the orderings of
the N atomic calls.  `callAll` performs one `__call__` per element of the
value list, in that serialization order, and collects the reference each
caller gets back. -/
def callAll (st : State) (cls : Nat) : List String → State × List (Option DCL.Inst)
  | [] => (st, [])
  | value :: rest =>
    let (st₁, r) := call st cls value
    let (st₂, rs) := callAll st₁ cls rest
    (st₂, r :: rs)

end SM

namespace DCL

@[simp] theorem setPC_slot {n : Nat} (c : Config n) (i : Fin n) (p : PC) :
    (c.setPC i p).slot = c.slot := rfl

@[simp] theorem setPC_lock {n : Nat} (c : Config n) (i : Fin n) (p : PC) :
    (c.setPC i p).lock = c.lock := rfl

@[simp] theorem setPC_constructions {n : Nat} (c : Config n) (i : Fin n) (p : PC) :
    (c.setPC i p).constructions = c.constructions := rfl

@[simp] theorem setPC_threads_self {n : Nat} (c : Config n) (i : Fin n) (p : PC) :
    (c.setPC i p).threads i = { c.threads i with pc := p } := by
  simp [Config.setPC]

theorem setPC_threads_ne {n : Nat} (c : Config n) {i j : Fin n} (p : PC) (h : j ≠ i) :
    (c.setPC i p).threads j = c.threads j := by
  simp [Config.setPC, Function.update_noteq h]

theorem setPC_arg {n : Nat} (c : Config n) (i j : Fin n) (p : PC) :
    ((c.setPC i p).threads j).arg = (c.threads j).arg := by
  by_cases h : j = i
  · subst h; simp
  · rw [setPC_threads_ne c p h]

/-- No step ever changes a thread's `value` argument. -/
theorem step_arg {n : Nat} (c : Config n) (i j : Fin n) :
    ((step c i).threads j).arg = (c.threads j).arg := by
  by_cases hji : j = i
  · subst hji
    cases h : (c.threads j).pc <;>
      simp only [step, h] <;>
      cases hs : c.slot <;> cases hl : c.lock <;>
      simp [hs, hl, setPC_arg, Function.update_same]
  · cases h : (c.threads i).pc <;>
      simp only [step, h] <;>
      cases hs : c.slot <;> cases hl : c.lock <;>
      simp [hs, hl, setPC_arg, setPC_threads_ne c _ hji, Function.update_noteq hji]

theorem run_arg {n : Nat} (c : Config n) (s : List (Fin n)) (j : Fin n) :
    ((run c s).threads j).arg = (c.threads j).arg := by
  induction s generalizing c with
  | nil => rfl
  | cons i s ih => rw [run, ih, step_arg]

theorem run_append {n : Nat} (c : Config n) (s s' : List (Fin n)) :
    run c (s ++ s') = run (run c s) s' := by
  induction s generalizing c with
  | nil => rfl
  | cons i s ih => rw [List.cons_append, run, run, ih]

@[simp] theorem initConfig_threads {n : Nat} (args : Fin n → String) (i : Fin n) :
    (initConfig args).threads i = { pc := .start, arg := args i, res := none } := rfl

/-- Every step of `get_instance` preserves the protocol invariant. -/
theorem inv_step {n : Nat} {c : Config n} (hc : Inv c) (i : Fin n) : Inv (step c i) := by
  obtain ⟨hHold, hSect, hCE, hCount, hPop, hDone, hArg⟩ := hc
  cases h : (c.threads i).pc with
  | start =>
    cases hs : c.slot with
    | none =>
      simp only [step, h, hs]
      refine ⟨?_, ?_, ?_, ?_, ?_, ?_, ?_⟩
      · intro j hj
        simp only [setPC_lock] at hj
        by_cases hji : j = i
        · subst hji
          exact absurd (hHold j hj) (by simp [h, inSection])
        · rw [setPC_threads_ne c _ hji]
          exact hHold j hj
      · intro j hsec
        by_cases hji : j = i
        · subst hji
          rw [setPC_threads_self] at hsec
          simp [inSection] at hsec
        · rw [setPC_threads_ne c _ hji] at hsec
          simpa using hSect j hsec
      · intro j _
        simp [hs]
      · exact Or.inl ⟨by simp [hs], by
          simpa using (hCount.resolve_right (fun hr => hr.1 hs)).2⟩
      · intro j hj
        by_cases hji : j = i
        · subst hji
          rw [setPC_threads_self] at hj
          simp at hj
        · rw [setPC_threads_ne c _ hji] at hj
          exact absurd hs (hPop j hj)
      · intro j hj
        by_cases hji : j = i
        · subst hji
          rw [setPC_threads_self] at hj
          simp at hj
        · rw [setPC_threads_ne c _ hji] at hj
          simpa [setPC_threads_ne c _ hji] using hDone j hj
      · intro v hv
        simp only [setPC_slot] at hv
        rw [hs] at hv
        cases hv
    | some v =>
      simp only [step, h, hs]
      refine ⟨?_, ?_, ?_, ?_, ?_, ?_, ?_⟩
      · intro j hj
        simp only [setPC_lock] at hj
        by_cases hji : j = i
        · subst hji
          exact absurd (hHold j hj) (by simp [h, inSection])
        · rw [setPC_threads_ne c _ hji]
          exact hHold j hj
      · intro j hsec
        by_cases hji : j = i
        · subst hji
          rw [setPC_threads_self] at hsec
          simp [inSection] at hsec
        · rw [setPC_threads_ne c _ hji] at hsec
          simpa using hSect j hsec
      · intro j hcj
        by_cases hji : j = i
        · subst hji
          rw [setPC_threads_self] at hcj
          simp at hcj
        · rw [setPC_threads_ne c _ hji] at hcj
          rw [hCE j hcj] at hs
          cases hs
      · refine Or.inr ⟨by simp [hs], ?_⟩
        simpa using (hCount.resolve_left (fun hl => by rw [hl.1] at hs; cases hs)).2
      · intro j _
        simp [hs]
      · intro j hj
        by_cases hji : j = i
        · subst hji
          rw [setPC_threads_self] at hj
          simp at hj
        · rw [setPC_threads_ne c _ hji] at hj
          simpa [setPC_threads_ne c _ hji] using hDone j hj
      · intro v' hv'
        simp only [setPC_slot] at hv'
        obtain ⟨j, hj⟩ := hArg v' hv'
        exact ⟨j, by rw [setPC_arg]; exact hj⟩
  | tryLock =>
    cases hl : c.lock with
    | none =>
      simp only [step, h, hl]
      refine ⟨?_, ?_, ?_, ?_, ?_, ?_, ?_⟩
      · intro j hj
        simp only [Option.some.injEq] at hj
        subst hj
        simp [inSection]
      · intro j hsec
        by_cases hji : j = i
        · subst hji
          rfl
        · rw [setPC_threads_ne c _ hji] at hsec
          rw [hSect j hsec] at hl
          cases hl
      · intro j hcj
        by_cases hji : j = i
        · subst hji
          rw [setPC_threads_self] at hcj
          simp at hcj
        · rw [setPC_threads_ne c _ hji] at hcj
          simpa using hCE j hcj
      · rcases hCount with ⟨h1, h2⟩ | ⟨h1, h2⟩
        · exact Or.inl ⟨by simpa using h1, by simpa using h2⟩
        · exact Or.inr ⟨by simpa using h1, by simpa using h2⟩
      · intro j hj
        by_cases hji : j = i
        · subst hji
          rw [setPC_threads_self] at hj
          simp at hj
        · rw [setPC_threads_ne c _ hji] at hj
          simpa using hPop j hj
      · intro j hj
        by_cases hji : j = i
        · subst hji
          rw [setPC_threads_self] at hj
          simp at hj
        · rw [setPC_threads_ne c _ hji] at hj
          simpa [setPC_threads_ne c _ hji] using hDone j hj
      · intro v hv
        obtain ⟨j, hj⟩ := hArg v (by simpa using hv)
        exact ⟨j, by rw [setPC_arg]; exact hj⟩
    | some k =>
      simp only [step, h, hl]
      exact ⟨hHold, hSect, hCE, hCount, hPop, hDone, hArg⟩
  | recheck =>
    cases hs : c.slot with
    | none =>
      simp only [step, h, hs]
      refine ⟨?_, ?_, ?_, ?_, ?_, ?_, ?_⟩
      · intro j hj
        simp only [setPC_lock] at hj
        by_cases hji : j = i
        · subst hji
          simp [inSection]
        · rw [setPC_threads_ne c _ hji]
          exact hHold j hj
      · intro j hsec
        by_cases hji : j = i
        · subst hji
          simpa using hSect j (by simp [h, inSection])
        · rw [setPC_threads_ne c _ hji] at hsec
          simpa using hSect j hsec
      · intro j _
        simp [hs]
      · exact Or.inl ⟨by simp [hs], by
          simpa using (hCount.resolve_right (fun hr => hr.1 hs)).2⟩
      · intro j hj
        by_cases hji : j = i
        · subst hji
          rw [setPC_threads_self] at hj
          simp at hj
        · rw [setPC_threads_ne c _ hji] at hj
          exact absurd hs (hPop j hj)
      · intro j hj
        by_cases hji : j = i
        · subst hji
          rw [setPC_threads_self] at hj
          simp at hj
        · rw [setPC_threads_ne c _ hji] at hj
          simpa [setPC_threads_ne c _ hji] using hDone j hj
      · intro v hv
        simp only [setPC_slot] at hv
        rw [hs] at hv
        cases hv
    | some v =>
      simp only [step, h, hs]
      refine ⟨?_, ?_, ?_, ?_, ?_, ?_, ?_⟩
      · intro j hj
        simp only [setPC_lock] at hj
        by_cases hji : j = i
        · subst hji
          simp [inSection]
        · rw [setPC_threads_ne c _ hji]
          exact hHold j hj
      · intro j hsec
        by_cases hji : j = i
        · subst hji
          simpa using hSect j (by simp [h, inSection])
        · rw [setPC_threads_ne c _ hji] at hsec
          simpa using hSect j hsec
      · intro j hcj
        by_cases hji : j = i
        · subst hji
          rw [setPC_threads_self] at hcj
          simp at hcj
        · rw [setPC_threads_ne c _ hji] at hcj
          rw [hCE j hcj] at hs
          cases hs
      · refine Or.inr ⟨by simp [hs], ?_⟩
        simpa using (hCount.resolve_left (fun hl => by rw [hl.1] at hs; cases hs)).2
      · intro j _
        simp [hs]
      · intro j hj
        by_cases hji : j = i
        · subst hji
          rw [setPC_threads_self] at hj
          simp at hj
        · rw [setPC_threads_ne c _ hji] at hj
          simpa [setPC_threads_ne c _ hji] using hDone j hj
      · intro v' hv'
        obtain ⟨j, hj⟩ := hArg v' (by simpa using hv')
        exact ⟨j, by rw [setPC_arg]; exact hj⟩
  | construct =>
    have hs : c.slot = none := hCE i h
    have hlock : c.lock = some i := hSect i (by simp [h, inSection])
    simp only [step, h]
    refine ⟨?_, ?_, ?_, ?_, ?_, ?_, ?_⟩
    · intro j hj
      simp only at hj
      have hij : i = j := by
        rw [hlock] at hj
        exact Option.some.inj hj
      subst hij
      simp [Function.update_same, inSection]
    · intro j hsec
      by_cases hji : j = i
      · subst hji
        simpa using hlock
      · simp only [Function.update_noteq hji] at hsec
        simpa using hSect j hsec
    · intro j hcj
      by_cases hji : j = i
      · subst hji
        simp [Function.update_same] at hcj
      · simp only [Function.update_noteq hji] at hcj
        have := hSect j (by simp [hcj, inSection])
        rw [hlock] at this
        cases this
        exact absurd rfl hji
    · have h0 : c.constructions = 0 := (hCount.resolve_right (fun hr => hr.1 hs)).2
      exact Or.inr ⟨by simp, by simp [h0]⟩
    · intro j _
      simp
    · intro j hj
      by_cases hji : j = i
      · subst hji
        simp [Function.update_same] at hj
      · simp only [Function.update_noteq hji] at hj
        exact absurd hs (hPop j (Or.inr (Or.inr hj)))
    · intro v hv
      simp only [Option.some.injEq] at hv
      refine ⟨i, ?_⟩
      simp [Function.update_same, ← hv]
  | unlock =>
    have hpop : c.slot ≠ none := hPop i (Or.inl h)
    simp only [step, h]
    refine ⟨?_, ?_, ?_, ?_, ?_, ?_, ?_⟩
    · intro j hj
      simp at hj
    · intro j hsec
      by_cases hji : j = i
      · subst hji
        rw [setPC_threads_self] at hsec
        simp [inSection] at hsec
      · rw [setPC_threads_ne c _ hji] at hsec
        have h1 := hSect j hsec
        have h2 := hSect i (by simp [h, inSection])
        rw [h1] at h2
        cases h2
        exact absurd rfl hji
    · intro j hcj
      by_cases hji : j = i
      · subst hji
        rw [setPC_threads_self] at hcj
        simp at hcj
      · rw [setPC_threads_ne c _ hji] at hcj
        simpa using hCE j hcj
    · rcases hCount with ⟨h1, h2⟩ | ⟨h1, h2⟩
      · exact absurd h1 hpop
      · exact Or.inr ⟨by simpa using h1, by simpa using h2⟩
    · intro j _
      simpa using hpop
    · intro j hj
      by_cases hji : j = i
      · subst hji
        rw [setPC_threads_self] at hj
        simp at hj
      · rw [setPC_threads_ne c _ hji] at hj
        simpa [setPC_threads_ne c _ hji] using hDone j hj
    · intro v hv
      obtain ⟨j, hj⟩ := hArg v (by simpa using hv)
      exact ⟨j, by rw [setPC_arg]; exact hj⟩
  | ret =>
    have hpop : c.slot ≠ none := hPop i (Or.inr (Or.inl h))
    simp only [step, h]
    refine ⟨?_, ?_, ?_, ?_, ?_, ?_, ?_⟩
    · intro j hj
      simp only at hj
      by_cases hji : j = i
      · subst hji
        exact absurd (hHold j hj) (by simp [h, inSection])
      · simp only [Function.update_noteq hji]
        exact hHold j hj
    · intro j hsec
      by_cases hji : j = i
      · subst hji
        simp [Function.update_same, inSection] at hsec
      · simp only [Function.update_noteq hji] at hsec
        simpa using hSect j hsec
    · intro j hcj
      by_cases hji : j = i
      · subst hji
        simp [Function.update_same] at hcj
      · simp only [Function.update_noteq hji] at hcj
        simpa using hCE j hcj
    · rcases hCount with ⟨h1, h2⟩ | ⟨h1, h2⟩
      · exact absurd h1 hpop
      · exact Or.inr ⟨by simpa using h1, by simpa using h2⟩
    · intro j _
      simpa using hpop
    · intro j hj
      by_cases hji : j = i
      · subst hji
        simp [Function.update_same]
      · simp only [Function.update_noteq hji] at hj
        simpa [Function.update_noteq hji] using hDone j hj
    · intro v hv
      obtain ⟨j, hj⟩ := hArg v (by simpa using hv)
      by_cases hji : j = i
      · subst hji
        exact ⟨j, by simpa [Function.update_same] using hj⟩
      · exact ⟨j, by simpa [Function.update_noteq hji] using hj⟩
  | done =>
    simp only [step, h]
    exact ⟨hHold, hSect, hCE, hCount, hPop, hDone, hArg⟩

theorem inv_run {n : Nat} {c : Config n} (hc : Inv c) (s : List (Fin n)) : Inv (run c s) := by
  induction s generalizing c with
  | nil => exact hc
  | cons i s ih => exact ih (inv_step hc i)

/-- The launch configuration satisfies the invariant. -/
theorem inv_init {n : Nat} (args : Fin n → String) : Inv (initConfig args) := by
  refine ⟨?_, ?_, ?_, ?_, ?_, ?_, ?_⟩
  · intro j hj
    cases hj
  · intro j hsec
    simp [initConfig, inSection] at hsec
  · intro j hcj
    simp [initConfig] at hcj
  · exact Or.inl ⟨rfl, rfl⟩
  · intro j hj
    simp [initConfig] at hj
  · intro j hj
    simp [initConfig] at hj
  · intro v hv
    cases hv

/-- Once populated, a single step never changes the slot's contents. -/
theorem step_slot_some {n : Nat} {c : Config n} (hc : Inv c) {v : Inst}
    (hs : c.slot = some v) (i : Fin n) : (step c i).slot = some v := by
  cases h : (c.threads i).pc <;> simp only [step, h]
  · rw [hs]
    simp [hs]
  · cases hl : c.lock <;> simp [hs]
  · rw [hs]
    simp [hs]
  · rw [hc.constructEmpty i h] at hs
    cases hs
  · simpa using hs
  · simpa using hs
  · exact hs

/-- Once populated, no run ever changes the slot's contents: the registry
slot is write-once. -/
theorem run_slot_some {n : Nat} {c : Config n} (hc : Inv c) {v : Inst}
    (hs : c.slot = some v) (s : List (Fin n)) : (run c s).slot = some v := by
  induction s generalizing c with
  | nil => exact hs
  | cons i s ih => exact ih (inv_step hc i) (step_slot_some hc hs i)

/-- A thread on the fast path of a populated registry stays on the fast
path after any thread's step. -/
theorem fast_step {n : Nat} {c : Config n} {v : Inst}
    (hs : c.slot = some v) {i : Fin n} (hf : fastPC (c.threads i).pc) (j : Fin n) :
    fastPC ((step c j).threads i).pc := by
  by_cases hij : i = j
  · subst hij
    cases h : (c.threads i).pc with
    | start => simp [step, h, hs, fastPC]
    | ret => simp [step, h, fastPC, Function.update_same]
    | done => simp [step, h, fastPC]
    | tryLock => rw [h] at hf; simp [fastPC] at hf
    | recheck => rw [h] at hf; simp [fastPC] at hf
    | construct => rw [h] at hf; simp [fastPC] at hf
    | unlock => rw [h] at hf; simp [fastPC] at hf
  · have hne : i ≠ j := hij
    cases h : (c.threads j).pc <;>
      simp only [step, h] <;>
      cases hs' : c.slot <;> cases hl : c.lock <;>
      simpa [hs', hl, setPC_threads_ne c _ hne, Function.update_noteq hne] using hf

/-- A thread on the fast path of a populated registry stays on the fast
path for the whole remainder of any schedule. -/
theorem fast_run {n : Nat} {c : Config n} (hc : Inv c) {v : Inst}
    (hs : c.slot = some v) {i : Fin n} (hf : fastPC (c.threads i).pc) (s : List (Fin n)) :
    fastPC ((run c s).threads i).pc := by
  induction s generalizing c with
  | nil => exact hf
  | cons j s ih => exact ih (inv_step hc j) (step_slot_some hc hs j) (fast_step hs hf j)

/-- A thread whose program counter is on the fast path does not hold the lock. -/
theorem fast_not_holder {n : Nat} {c : Config n} (hc : Inv c) {i : Fin n}
    (hf : fastPC (c.threads i).pc) : c.lock ≠ some i := by
  intro hl
  have := hc.holderInSection i hl
  cases h : (c.threads i).pc <;> rw [h] at this hf <;>
    simp [inSection, fastPC] at this hf

/-- Every terminated run from the launch configuration built exactly one
instance, every thread returned it, and its `value` is one of the arguments. -/
theorem terminal_run {n : Nat} (args : Fin n → String) (hn : 0 < n)
    (s : List (Fin n))
    (hdone : ∀ i, ((run (initConfig args) s).threads i).pc = PC.done) :
    (run (initConfig args) s).constructions = 1 ∧
    ∃ v : Inst, (run (initConfig args) s).slot = some v ∧
      (∀ i, ((run (initConfig args) s).threads i).res = some v) ∧
      ∃ j, args j = v.value := by
  have hinv := inv_run (inv_init args) s
  have hpop : (run (initConfig args) s).slot ≠ none :=
    hinv.popAfter ⟨0, hn⟩ (Or.inr (Or.inr (hdone ⟨0, hn⟩)))
  obtain ⟨v, hv⟩ := Option.ne_none_iff_exists'.mp hpop
  refine ⟨(hinv.count.resolve_left (fun hl => hpop hl.1)).2, v, hv, ?_, ?_⟩
  · intro i
    rw [hinv.doneRes i (hdone i), hv]
  · obtain ⟨j, hj⟩ := hinv.slotArg v hv
    exact ⟨j, by rw [← hj, run_arg]; rfl⟩

end DCL

namespace SM

/-- Appending dict entries never changes an existing binding (new keys are
only ever added for classes that are absent). -/
theorem lookup_append_of_some {m : List (Nat × DCL.Inst)} {cls : Nat} {v : DCL.Inst}
    (h : lookupInstance m cls = some v) (l : List (Nat × DCL.Inst)) :
    lookupInstance (m ++ l) cls = some v := by
  induction m with
  | nil => cases h
  | cons p rest ih =>
    rw [lookupInstance] at h
    rw [List.cons_append, lookupInstance]
    by_cases hp : p.1 = cls
    · rw [if_pos hp] at h ⊢
      exact h
    · rw [if_neg hp] at h ⊢
      exact ih h

/-- A single `__call__` never changes a populated entry of `_instances`. -/
theorem call_lookup_of_some {st : State} {cls : Nat} {v : DCL.Inst}
    (h : lookupInstance st._instances cls = some v) (cls' : Nat) (value : String) :
    lookupInstance ((call st cls' value).1)._instances cls = some v := by
  rw [call]
  cases hl : lookupInstance st._instances cls' <;> simp only [hl]
  · exact lookup_append_of_some h _
  · exact h

/-- Along any sequence of `__call__` invocations, a populated entry of
`_instances` never changes. -/
theorem runCalls_lookup_of_some {st : State} {cls : Nat} {v : DCL.Inst}
    (h : lookupInstance st._instances cls = some v) (calls : List (Nat × String)) :
    lookupInstance ((runCalls st calls)._instances) cls = some v := by
  induction calls generalizing st with
  | nil => exact h
  | cons p rest ih => exact ih (call_lookup_of_some h p.1 p.2)

/-- Appending an entry for one class leaves every other class's lookup
result unchanged. -/
theorem lookup_append_single_ne {cls cls' : Nat} (h : cls' ≠ cls)
    (m : List (Nat × DCL.Inst)) (i : DCL.Inst) :
    lookupInstance (m ++ [(cls, i)]) cls' = lookupInstance m cls' := by
  induction m with
  | nil => simp [lookupInstance, Ne.symm h]
  | cons p rest ih =>
    obtain ⟨c₀, v₀⟩ := p
    rw [List.cons_append, lookupInstance, lookupInstance]
    by_cases hp : c₀ = cls'
    · rw [if_pos hp, if_pos hp]
    · rw [if_neg hp, if_neg hp, ih]

/-- `__call__` on one class leaves every other class's entry untouched. -/
theorem call_frame {st : State} {cls cls' : Nat} (h : cls' ≠ cls) (value : String) :
    lookupInstance ((call st cls value).1)._instances cls' =
      lookupInstance st._instances cls' := by
  rw [call]
  cases hl : lookupInstance st._instances cls <;> simp only [hl]
  exact lookup_append_single_ne h _ _

/-- Every `__call__` acquires `cls._lock` exactly once, populated or not. -/
theorem call_acquires_lock (st : State) (cls : Nat) (value : String) :
    ((call st cls value).1).lockAcquisitions = st.lockAcquisitions + 1 := by
  rw [call]
  cases hl : lookupInstance st._instances cls <;> simp [hl]

/-- Looking up a key just appended to a dict that lacked it finds it. -/
theorem lookup_append_self {m : List (Nat × DCL.Inst)} {cls : Nat}
    (h : lookupInstance m cls = none) (i : DCL.Inst) :
    lookupInstance (m ++ [(cls, i)]) cls = some i := by
  induction m with
  | nil => simp [lookupInstance]
  | cons p rest ih =>
    obtain ⟨c₀, v₀⟩ := p
    rw [lookupInstance] at h
    rw [List.cons_append, lookupInstance]
    by_cases hp : c₀ = cls
    · rw [if_pos hp] at h
      cases h
    · rw [if_neg hp] at h ⊢
      exact ih h

/-- `__call__` on a class whose instance exists only bumps the lock counter
and returns the existing instance: no construction, no dict write. -/
theorem call_populated {st : State} {cls : Nat} {v : DCL.Inst}
    (h : lookupInstance st._instances cls = some v) (value : String) :
    call st cls value =
      ({ st with lockAcquisitions := st.lockAcquisitions + 1 }, some v) := by
  rw [call]
  simp only [h]

/-- Serialized callers arriving after the class's instance exists all get
that instance back, and the construction counter (`nextId`) never moves. -/
theorem callAll_populated {st : State} {cls : Nat} {v : DCL.Inst}
    (h : lookupInstance st._instances cls = some v) (vals : List String) :
    ((callAll st cls vals).1).nextId = st.nextId ∧
    lookupInstance ((callAll st cls vals).1)._instances cls = some v ∧
    ∀ r ∈ (callAll st cls vals).2, r = some v := by
  induction vals generalizing st with
  | nil => exact ⟨rfl, h, by simp [callAll]⟩
  | cons value rest ih =>
    obtain ⟨h1, h2, h3⟩ := @ih { st with lockAcquisitions := st.lockAcquisitions + 1 } h
    rw [callAll]
    simp only [call_populated h value]
    refine ⟨h1, h2, ?_⟩
    intro r hr
    rcases List.mem_cons.mp hr with hr | hr
    · exact hr
    · exact h3 r hr

/-- N serialized first callers on a fresh class: the first one constructs
the single instance (with its own tag and a fresh identity), the counter
moves exactly once, and every caller gets that same instance back. -/
theorem callAll_fresh {st : State} {cls : Nat}
    (h : lookupInstance st._instances cls = none) (v₀ : String) (rest : List String) :
    ((callAll st cls (v₀ :: rest)).1).nextId = st.nextId + 1 ∧
    lookupInstance ((callAll st cls (v₀ :: rest)).1)._instances cls =
      some ⟨st.nextId, v₀⟩ ∧
    ∀ r ∈ (callAll st cls (v₀ :: rest)).2, r = some ⟨st.nextId, v₀⟩ := by
  have hcall : call st cls v₀ =
      ({ _instances := st._instances ++ [(cls, ⟨st.nextId, v₀⟩)],
         nextId := st.nextId + 1,
         lockAcquisitions := st.lockAcquisitions + 1 }, some ⟨st.nextId, v₀⟩) := by
    rw [call]
    simp only [h]
    rw [Prod.mk.injEq]
    exact ⟨rfl, lookup_append_self h _⟩
  have hpop :
      lookupInstance
          ({ _instances := st._instances ++ [(cls, ⟨st.nextId, v₀⟩)],
             nextId := st.nextId + 1,
             lockAcquisitions := st.lockAcquisitions + 1 } : State)._instances cls =
        some ⟨st.nextId, v₀⟩ := lookup_append_self h _
  obtain ⟨h1, h2, h3⟩ := callAll_populated hpop rest
  rw [callAll]
  simp only [hcall]
  refine ⟨h1, h2, ?_⟩
  intro r hr
  rcases List.mem_cons.mp hr with hr | hr
  · exact hr
  · exact h3 r hr

end SM

namespace NT

/-- `get_instance` never raises and always hands back a populated slot. -/
theorem get_instance_ok (st : State) :
    ∃ st' v, get_instance st = (st', Except.ok (some v)) := by
  by_cases h : st._instance = none
  · refine ⟨{ _instance := some st.nextId, nextId := st.nextId + 1 }, st.nextId, ?_⟩
    rw [get_instance, if_pos h, init, h]
  · obtain ⟨v, hv⟩ := Option.ne_none_iff_exists'.mp h
    refine ⟨st, v, ?_⟩
    rw [get_instance, if_neg h, hv]

/-- On a populated registry, `get_instance` is the identity on the state and
returns the registered instance. -/
theorem get_instance_populated {st : State} {v : Nat} (h : st._instance = some v) :
    get_instance st = (st, Except.ok (some v)) := by
  rw [get_instance, if_neg (by simp [h]), h]

end NT

/-- C1: for any set of N ≥ 2 concurrent first calls to the accessor from the
launch state, exactly one construction occurs and all callers get the same
reference back.  Structural `get_instance`: every schedule on which all
threads complete performs exactly one construction, all threads return the
same instance, and its `value` is one of the callers' arguments; with two
callers passing "FOO" and "BAR", one of the two tags is retained and both
callers observe it.  Metaclass `__call__`: the lock serializes the N
concurrent callers into an arbitrary order of atomic calls, and for every
such order on a fresh class the construction counter moves exactly once, the
retained tag is the first serialized caller's, and every caller gets that
same instance back; with callers "FOO" and "BAR" in either order, one of the
two tags is retained and both callers observe it. -/
theorem c1_concurrent_first_calls :
    (∀ (n : Nat) (args : Fin n → String) (s : List (Fin n)),
      2 ≤ n →
      (∀ i, ((DCL.run (DCL.initConfig args) s).threads i).pc = DCL.PC.done) →
      (DCL.run (DCL.initConfig args) s).constructions = 1 ∧
      ∃ v : DCL.Inst, (DCL.run (DCL.initConfig args) s).slot = some v ∧
        (∀ i, ((DCL.run (DCL.initConfig args) s).threads i).res = some v) ∧
        ∃ j, args j = v.value) ∧
    (∀ s : List (Fin 2),
      (∀ i, ((DCL.run (DCL.initConfig !["FOO", "BAR"]) s).threads i).pc = DCL.PC.done) →
      ∃ v : DCL.Inst,
        (DCL.run (DCL.initConfig !["FOO", "BAR"]) s).slot = some v ∧
        (v.value = "FOO" ∨ v.value = "BAR") ∧
        ((DCL.run (DCL.initConfig !["FOO", "BAR"]) s).threads 0).res = some v ∧
        ((DCL.run (DCL.initConfig !["FOO", "BAR"]) s).threads 1).res = some v ∧
        (DCL.run (DCL.initConfig !["FOO", "BAR"]) s).constructions = 1) ∧
    (∀ (st : SM.State) (cls : Nat) (v₀ : String) (rest : List String),
      SM.lookupInstance st._instances cls = none →
      ((SM.callAll st cls (v₀ :: rest)).1).nextId = st.nextId + 1 ∧
      SM.lookupInstance ((SM.callAll st cls (v₀ :: rest)).1)._instances cls =
        some ⟨st.nextId, v₀⟩ ∧
      ∀ r ∈ (SM.callAll st cls (v₀ :: rest)).2, r = some ⟨st.nextId, v₀⟩) ∧
    (∀ vals : List String, (vals = ["FOO", "BAR"] ∨ vals = ["BAR", "FOO"]) →
      ∃ v : DCL.Inst, (v.value = "FOO" ∨ v.value = "BAR") ∧
        SM.lookupInstance ((SM.callAll SM.state0 0 vals).1)._instances 0 = some v ∧
        ((SM.callAll SM.state0 0 vals).1).nextId = 1 ∧
        ∀ r ∈ (SM.callAll SM.state0 0 vals).2, r = some v) := by
  refine ⟨?_, ?_, ?_, ?_⟩
  · intro n args s hn hdone
    exact DCL.terminal_run args (by omega) s hdone
  · intro s hdone
    obtain ⟨hcount, v, hv, hres, j, hj⟩ :=
      DCL.terminal_run !["FOO", "BAR"] (by omega) s hdone
    refine ⟨v, hv, ?_, hres 0, hres 1, hcount⟩
    fin_cases j
    · exact Or.inl (by rw [← hj]; rfl)
    · exact Or.inr (by rw [← hj]; rfl)
  · intro st cls v₀ rest h
    exact SM.callAll_fresh h v₀ rest
  · rintro vals (rfl | rfl)
    · exact ⟨⟨0, "FOO"⟩, Or.inl rfl, by decide, by decide, by decide⟩
    · exact ⟨⟨0, "BAR"⟩, Or.inr rfl, by decide, by decide, by decide⟩

/-- C1 witness: a concrete terminating schedule for two structural threads
with tags "FOO" and "BAR" (thread 0 runs to completion, then thread 1), and
the two metaclass callers "FOO" then "BAR" serialized on fresh class 0. -/
theorem c1_concurrent_first_calls_witness :
    (∀ i : Fin 2,
      ((DCL.run (DCL.initConfig !["FOO", "BAR"]) [0, 0, 0, 0, 0, 0, 1, 1]).threads i).pc =
        DCL.PC.done) ∧
    (∃ v : DCL.Inst,
      (DCL.run (DCL.initConfig !["FOO", "BAR"]) [0, 0, 0, 0, 0, 0, 1, 1]).slot = some v ∧
      (v.value = "FOO" ∨ v.value = "BAR") ∧
      ((DCL.run (DCL.initConfig !["FOO", "BAR"]) [0, 0, 0, 0, 0, 0, 1, 1]).threads 0).res =
        some v ∧
      ((DCL.run (DCL.initConfig !["FOO", "BAR"]) [0, 0, 0, 0, 0, 0, 1, 1]).threads 1).res =
        some v ∧
      (DCL.run (DCL.initConfig !["FOO", "BAR"]) [0, 0, 0, 0, 0, 0, 1, 1]).constructions =
        1) ∧
    (((SM.callAll SM.state0 0 ["FOO", "BAR"]).1).nextId = 1 ∧
      SM.lookupInstance ((SM.callAll SM.state0 0 ["FOO", "BAR"]).1)._instances 0 =
        some ⟨0, "FOO"⟩ ∧
      ∀ r ∈ (SM.callAll SM.state0 0 ["FOO", "BAR"]).2, r = some ⟨0, "FOO"⟩) ∧
    ∃ v : DCL.Inst, (v.value = "FOO" ∨ v.value = "BAR") ∧
      SM.lookupInstance ((SM.callAll SM.state0 0 ["BAR", "FOO"]).1)._instances 0 = some v ∧
      ((SM.callAll SM.state0 0 ["BAR", "FOO"]).1).nextId = 1 ∧
      ∀ r ∈ (SM.callAll SM.state0 0 ["BAR", "FOO"]).2, r = some v :=
  ⟨by decide, c1_concurrent_first_calls.2.1 [0, 0, 0, 0, 0, 0, 1, 1] (by decide),
    c1_concurrent_first_calls.2.2.1 SM.state0 0 "FOO" ["BAR"] rfl,
    c1_concurrent_first_calls.2.2.2 ["BAR", "FOO"] (Or.inr rfl)⟩

/-- C2: the registry slot is write-once and monotonic: in the structural
variant, once a run has populated `Singleton._instance`, no extension of the
schedule ever changes it; in the metaclass variant, once `_instances[cls]`
is populated, no sequence of further `__call__`s changes that entry. -/
theorem c2_slot_write_once :
    (∀ (n : Nat) (args : Fin n → String) (s s' : List (Fin n)) (v : DCL.Inst),
      (DCL.run (DCL.initConfig args) s).slot = some v →
      (DCL.run (DCL.initConfig args) (s ++ s')).slot = some v) ∧
    (∀ (st : SM.State) (cls : Nat) (v : DCL.Inst) (calls : List (Nat × String)),
      SM.lookupInstance st._instances cls = some v →
      SM.lookupInstance ((SM.runCalls st calls)._instances) cls = some v) := by
  constructor
  · intro n args s s' v hv
    rw [DCL.run_append]
    exact DCL.run_slot_some (DCL.inv_run (DCL.inv_init args) s) hv s'
  · intro st cls v calls h
    exact SM.runCalls_lookup_of_some h calls

/-- C2 witness: thread 0 populates the slot with "FOO"; the extension where
thread 1 runs leaves it unchanged, and likewise for the metaclass registry. -/
theorem c2_slot_write_once_witness :
    (DCL.run (DCL.initConfig !["FOO", "BAR"]) [0, 0, 0, 0, 0, 0]).slot = some ⟨0, "FOO"⟩ ∧
    (DCL.run (DCL.initConfig !["FOO", "BAR"]) ([0, 0, 0, 0, 0, 0] ++ [1, 1])).slot =
      some ⟨0, "FOO"⟩ ∧
    SM.lookupInstance ((SM.call SM.state0 0 "A").1)._instances 0 = some ⟨0, "A"⟩ ∧
    SM.lookupInstance
        ((SM.runCalls (SM.call SM.state0 0 "A").1 [(0, "B"), (1, "C")])._instances) 0 =
      some ⟨0, "A"⟩ :=
  ⟨by decide, c2_slot_write_once.1 2 _ _ [1, 1] _ (by decide), by decide,
    c2_slot_write_once.2 _ 0 _ [(0, "B"), (1, "C")] (by decide)⟩

/-- C3 counterexample: the claim says that after first population no
accessor call ever acquires the lock, and it covers `SingletonMeta.__call__`;
but after `Singleton("A")` has populated the metaclass registry for class 0,
the call `Singleton("B")` still acquires `cls._lock` (the acquisition
counter rises by one), because the whole body of `__call__` sits inside
`with cls._lock:` with no unguarded fast path. -/
theorem c3_counterexample :
    SM.lookupInstance ((SM.call SM.state0 0 "A").1)._instances 0 = some ⟨0, "A"⟩ ∧
    ((SM.call (SM.call SM.state0 0 "A").1 0 "B").1).lockAcquisitions =
      ((SM.call SM.state0 0 "A").1).lockAcquisitions + 1 := by decide

/-- C3 amended: only the structural `Singleton.get_instance` implements
double-checked locking with an unguarded fast path — a call made when the
slot is already populated stays on the fast path and never acquires the
lock; the metaclass `SingletonMeta.__call__` instead acquires the lock
exactly once on every call, populated or not. -/
theorem c3_amended_fast_path :
    (∀ (n : Nat) (args : Fin n → String) (s : List (Fin n)) (i : Fin n) (v : DCL.Inst),
      (DCL.run (DCL.initConfig args) s).slot = some v →
      DCL.fastPC ((DCL.run (DCL.initConfig args) s).threads i).pc →
      ∀ s' : List (Fin n),
        DCL.fastPC ((DCL.run (DCL.run (DCL.initConfig args) s) s').threads i).pc ∧
        (DCL.run (DCL.run (DCL.initConfig args) s) s').lock ≠ some i) ∧
    (∀ (st : SM.State) (cls : Nat) (value : String),
      ((SM.call st cls value).1).lockAcquisitions = st.lockAcquisitions + 1) := by
  constructor
  · intro n args s i v hv hf s'
    have hinv := DCL.inv_run (DCL.inv_init args) s
    refine ⟨DCL.fast_run hinv hv hf s', ?_⟩
    exact DCL.fast_not_holder (DCL.inv_run hinv s') (DCL.fast_run hinv hv hf s')
  · exact SM.call_acquires_lock

/-- C3 amended witness: thread 0 has populated the slot, thread 1 is at its
first unguarded check; running thread 1 to completion keeps it on the fast
path and it never holds the lock; one concrete metaclass call acquires the
lock once. -/
theorem c3_amended_fast_path_witness :
    (DCL.fastPC
        ((DCL.run (DCL.run (DCL.initConfig !["FOO", "BAR"]) [0, 0, 0, 0, 0, 0]) [1, 1]).threads
          1).pc ∧
      (DCL.run (DCL.run (DCL.initConfig !["FOO", "BAR"]) [0, 0, 0, 0, 0, 0]) [1, 1]).lock ≠
        some 1) ∧
    ((SM.call SM.state0 5 "Z").1).lockAcquisitions = SM.state0.lockAcquisitions + 1 :=
  ⟨c3_amended_fast_path.1 2 _ [0, 0, 0, 0, 0, 0] 1 ⟨0, "FOO"⟩ (by decide) (by decide) [1, 1],
    c3_amended_fast_path.2 SM.state0 5 "Z"⟩

/-- C4: calling the constructor directly raises
`ReferenceError("Cannot instantiate a singleton class.")` exactly when an
instance already occupies the slot; the first direct construction, from the
empty slot, succeeds and registers the new object. -/
theorem c4_bypass_rejection (st : NT.State) :
    (st._instance ≠ none →
      NT.init st = (st, Except.error "Cannot instantiate a singleton class.")) ∧
    (st._instance = none →
      NT.init st =
        ({ _instance := some st.nextId, nextId := st.nextId + 1 }, Except.ok st.nextId)) := by
  constructor
  · intro h
    obtain ⟨v, hv⟩ := Option.ne_none_iff_exists'.mp h
    rw [NT.init, hv]
  · intro h
    rw [NT.init, h]

/-- C4 witness: the first direct construction succeeds; a second one,
attempted while the slot is populated, raises. -/
theorem c4_bypass_rejection_witness :
    NT.init NT.state0 = ({ _instance := some 0, nextId := 1 }, Except.ok 0) ∧
    NT.init { _instance := some 0, nextId := 1 } =
      ({ _instance := some 0, nextId := 1 },
        Except.error "Cannot instantiate a singleton class.") :=
  ⟨(c4_bypass_rejection NT.state0).2 rfl, (c4_bypass_rejection _).1 (by decide)⟩

/-- C5: the accessor is idempotent once the instance exists: in the
self-registering variants `get_instance` returns the registered instance and
leaves the state untouched; in the structural variant any schedule extension
after population keeps the slot, performs no further construction, and every
thread that completes returns the existing instance. -/
theorem c5_accessor_idempotent :
    (∀ (st : NT.State) (v : Nat), st._instance = some v →
      NT.get_instance st = (st, Except.ok (some v))) ∧
    (∀ (n : Nat) (args : Fin n → String) (s s' : List (Fin n)) (v : DCL.Inst),
      (DCL.run (DCL.initConfig args) s).slot = some v →
      (DCL.run (DCL.initConfig args) (s ++ s')).slot = some v ∧
      (DCL.run (DCL.initConfig args) (s ++ s')).constructions =
        (DCL.run (DCL.initConfig args) s).constructions ∧
      (∀ i, ((DCL.run (DCL.initConfig args) (s ++ s')).threads i).pc = DCL.PC.done →
        ((DCL.run (DCL.initConfig args) (s ++ s')).threads i).res = some v)) := by
  constructor
  · intro st v h
    exact NT.get_instance_populated h
  · intro n args s s' v hv
    have hinv := DCL.inv_run (DCL.inv_init args) s
    have hinv' := DCL.inv_run hinv s'
    have hslot : (DCL.run (DCL.initConfig args) (s ++ s')).slot = some v := by
      rw [DCL.run_append]
      exact DCL.run_slot_some hinv hv s'
    rw [DCL.run_append] at hslot ⊢
    refine ⟨hslot, ?_, ?_⟩
    · rw [(hinv'.count.resolve_left (fun hl => by rw [hl.1] at hslot; cases hslot)).2,
        (hinv.count.resolve_left (fun hl => by rw [hl.1] at hv; cases hv)).2]
    · intro i hdone
      rw [hinv'.doneRes i hdone, hslot]

/-- C5 witness: after thread 0 populates the slot with "A", running thread 1
changes neither the slot nor the construction count, and thread 1 returns
the existing instance. -/
theorem c5_accessor_idempotent_witness :
    NT.get_instance { _instance := some 7, nextId := 8 } =
      ({ _instance := some 7, nextId := 8 }, Except.ok (some 7)) ∧
    (DCL.run (DCL.initConfig !["A", "B"]) ([0, 0, 0, 0, 0, 0] ++ [1, 1])).slot =
      some ⟨0, "A"⟩ ∧
    ((DCL.run (DCL.initConfig !["A", "B"]) ([0, 0, 0, 0, 0, 0] ++ [1, 1])).threads 1).res =
      some ⟨0, "A"⟩ :=
  ⟨c5_accessor_idempotent.1 _ 7 rfl,
    (c5_accessor_idempotent.2 2 _ [0, 0, 0, 0, 0, 0] [1, 1] ⟨0, "A"⟩ (by decide)).1,
    (c5_accessor_idempotent.2 2 _ [0, 0, 0, 0, 0, 0] [1, 1] ⟨0, "A"⟩ (by decide)).2.2 1
      (by decide)⟩

/-- C6: construction arguments supplied on non-first accessor calls are
ignored: calling first with tag "A" and then with tag "B" returns the same
instance, whose stored value is still "A", with no second construction —
both for sequential calls in the structural variant and for the metaclass
variant. -/
theorem c6_later_args_ignored :
    ((DCL.run (DCL.initConfig !["A", "B"]) [0, 0, 0, 0, 0, 0, 1, 1]).slot =
        some ⟨0, "A"⟩ ∧
      ((DCL.run (DCL.initConfig !["A", "B"]) [0, 0, 0, 0, 0, 0, 1, 1]).threads 1).res =
        some ⟨0, "A"⟩ ∧
      (DCL.run (DCL.initConfig !["A", "B"]) [0, 0, 0, 0, 0, 0, 1, 1]).constructions = 1) ∧
    ((SM.call (SM.call SM.state0 0 "A").1 0 "B").2 = some ⟨0, "A"⟩ ∧
      ((SM.call (SM.call SM.state0 0 "A").1 0 "B").1).nextId = 1) := by decide

/-- C7: under correct usage the accessor never raises: every `get_instance`
call in any sequence starting from the empty slot returns an instance, and
in the structural variant every completed call returns an instance. -/
theorem c7_accessor_never_errors :
    (∀ k : Nat, ∃ st' v,
      NT.get_instance (NT.iterGet NT.state0 k) = (st', Except.ok (some v))) ∧
    (∀ (n : Nat) (args : Fin n → String) (s : List (Fin n)) (i : Fin n),
      ((DCL.run (DCL.initConfig args) s).threads i).pc = DCL.PC.done →
      ∃ v, ((DCL.run (DCL.initConfig args) s).threads i).res = some v) := by
  constructor
  · intro k
    exact NT.get_instance_ok _
  · intro n args s i hdone
    have hinv := DCL.inv_run (DCL.inv_init args) s
    obtain ⟨v, hv⟩ :=
      Option.ne_none_iff_exists'.mp (hinv.popAfter i (Or.inr (Or.inr hdone)))
    exact ⟨v, by rw [hinv.doneRes i hdone, hv]⟩

/-- C7 witness: the fourth call of a fresh sequence returns an instance, and
a concrete completed structural call returned an instance. -/
theorem c7_accessor_never_errors_witness :
    (∃ st' v, NT.get_instance (NT.iterGet NT.state0 3) = (st', Except.ok (some v))) ∧
    ∃ v, ((DCL.run (DCL.initConfig !["FOO", "BAR"]) [0, 0, 0, 0, 0, 0]).threads 0).res =
      some v :=
  ⟨c7_accessor_never_errors.1 3,
    c7_accessor_never_errors.2 2 _ [0, 0, 0, 0, 0, 0] 0 (by decide)⟩

/-- C8: instances are kept per class: `__call__` on class `cls` leaves every
other class's entry of the shared `_instances` dict unchanged, and two
distinct classes each obtain their own single, distinct instance. -/
theorem c8_per_class_registry :
    (∀ (st : SM.State) (cls : Nat) (value : String) (cls' : Nat), cls' ≠ cls →
      SM.lookupInstance ((SM.call st cls value).1)._instances cls' =
        SM.lookupInstance st._instances cls') ∧
    ((SM.call SM.state0 0 "X").2 = some ⟨0, "X"⟩ ∧
      (SM.call (SM.call SM.state0 0 "X").1 1 "Y").2 = some ⟨1, "Y"⟩ ∧
      SM.lookupInstance ((SM.call (SM.call SM.state0 0 "X").1 1 "Y").1)._instances 0 =
        some ⟨0, "X"⟩ ∧
      (⟨0, "X"⟩ : DCL.Inst) ≠ ⟨1, "Y"⟩) := by
  constructor
  · intro st cls value cls' h
    exact SM.call_frame h value
  · decide

/-- C8 witness: calling class 1 leaves class 0's entry exactly as it was. -/
theorem c8_per_class_registry_witness :
    SM.lookupInstance ((SM.call (SM.call SM.state0 0 "X").1 1 "Y").1)._instances 0 =
      SM.lookupInstance ((SM.call SM.state0 0 "X").1)._instances 0 :=
  c8_per_class_registry.1 _ 1 "Y" 0 (by decide)

/-- C9: a successful direct construction from the empty slot registers the
new object in the slot, so every subsequent `get_instance` call returns that
same directly-constructed instance, leaving the state (and hence the fresh
identity counter) untouched: construction is never invoked again. -/
theorem c9_self_registration (st : NT.State) (h : st._instance = none) :
    ((NT.init st).1)._instance = some st.nextId ∧
    (NT.init st).2 = Except.ok st.nextId ∧
    (∀ k, NT.iterGet (NT.init st).1 k = (NT.init st).1) ∧
    (∀ k, NT.get_instance (NT.iterGet (NT.init st).1 k) =
      ((NT.init st).1, Except.ok (some st.nextId))) := by
  have hinit : NT.init st =
      ({ _instance := some st.nextId, nextId := st.nextId + 1 }, Except.ok st.nextId) := by
    rw [NT.init, h]
  have hiter : ∀ k, NT.iterGet (NT.init st).1 k = (NT.init st).1 := by
    intro k
    induction k with
    | zero => rfl
    | succ k ih =>
      rw [NT.iterGet, ih, hinit, NT.get_instance_populated (v := st.nextId) rfl]
  refine ⟨by rw [hinit], by rw [hinit], hiter, ?_⟩
  intro k
  rw [hiter k, hinit, NT.get_instance_populated (v := st.nextId) rfl]

/-- C9 witness: from the empty registry, direct construction registers
identity 0 and the third subsequent `get_instance` call returns it. -/
theorem c9_self_registration_witness :
    ((NT.init NT.state0).1)._instance = some 0 ∧
    NT.get_instance (NT.iterGet (NT.init NT.state0).1 2) =
      ((NT.init NT.state0).1, Except.ok (some 0)) :=
  ⟨(c9_self_registration NT.state0 rfl).1, (c9_self_registration NT.state0 rfl).2.2.2 2⟩

/-- C10: the duplicate-direct-construction error is atomic with respect to
the registry: when the constructor raises because an instance exists, the
whole state is unchanged and `Singleton._instance` still refers to the
previously existing instance. -/
theorem c10_error_preserves_slot (st : NT.State) (v : Nat) (h : st._instance = some v) :
    NT.init st = (st, Except.error "Cannot instantiate a singleton class.") ∧
    ((NT.init st).1)._instance = some v := by
  have herr : NT.init st = (st, Except.error "Cannot instantiate a singleton class.") := by
    rw [NT.init, h]
  exact ⟨herr, by rw [herr]; exact h⟩

/-- C10 witness: raising on a populated registry leaves the slot pointing at
the existing instance with identity 4. -/
theorem c10_error_preserves_slot_witness :
    NT.init { _instance := some 4, nextId := 5 } =
      ({ _instance := some 4, nextId := 5 },
        Except.error "Cannot instantiate a singleton class.") ∧
    ((NT.init { _instance := some 4, nextId := 5 }).1)._instance = some 4 :=
  c10_error_preserves_slot _ 4 rfl
